import Mathlib

/-!
Shallow embedding of the particle-filter engine in `src/pf.go` of
jhoydich/particle-filter.

Modelling conventions:
* Go `float64` values are modelled as real numbers (`ℝ`).
* The package-level random source (`rand.Float64`, `rand.Intn`) and the gonum
  Gaussian samplers (`distuv.Normal.Rand`) are modelled as explicit input
  streams passed to the operations that consume them; a `distuv.Normal` field
  of the Go struct is represented by its `Sigma` parameter.
* The inner resampling-wheel loop (`for beta > 0 { ... }`) has no syntactic
  termination bound in Go, so it is modelled with an explicit fuel parameter;
  `none` means the loop has not exited within `fuel` iterations.
-/

noncomputable section

/-- The `Particle` struct of `pf.go`: a pose hypothesis plus importance weight. -/
structure Particle where
  X : ℝ
  Y : ℝ
  Heading : ℝ
  Weight : ℝ

instance : Inhabited Particle := ⟨⟨0, 0, 0, 0⟩⟩

/-- Function `Particle.UpdateWeight` from `pf.go`: overwrite the weight field. -/
def Particle.UpdateWeight (p : Particle) (weight : ℝ) : Particle :=
  { p with Weight := weight }

/-- Function `Particle.Move` from `pf.go`: add the angle delta, wrap once by `±2π`
(only when the sum is `< 0` or `> 2π`), then advance the position along the
new heading. -/
def Particle.Move (p : Particle) (dist ang : ℝ) : Particle :=
  let h0 := p.Heading + ang
  let h :=
    if h0 < 0 then h0 + 2 * Real.pi
    else if h0 > 2 * Real.pi then h0 - 2 * Real.pi
    else h0
  { p with Heading := h, X := p.X + dist * Real.cos h, Y := p.Y + dist * Real.sin h }

/-- The `ParticleFilter` struct of `pf.go`.  The three `distuv.Normal` fields
are carried as their sigma parameters (their draws enter the operations as
explicit noise streams). -/
structure ParticleFilter where
  numSamples : ℕ
  percentResample : ℝ
  listParticles : List Particle
  xMin : ℝ
  xMax : ℝ
  yMin : ℝ
  yMax : ℝ
  EstimatedX : ℝ
  EstimatedY : ℝ
  EstimatedHeading : ℝ
  maxWeight : ℝ
  sumWeight : ℝ
  iteration : ℕ
  locSigma : ℝ
  angSigma : ℝ
  distSigma : ℝ

/-- Function `checkAndSetMaxWeight` from `pf.go`, returning the new `maxWeight` field:
take the larger of the current maximum and `weight`, except that with
`override` set the field is overwritten with `weight` unconditionally. -/
def checkAndSetMaxWeight (maxWeight weight : ℝ) (override : Bool) : ℝ :=
  let m := if weight > maxWeight then weight else maxWeight
  if override then weight else m

/-- Function `createParticle` from `pf.go`; `u`, `v`, `w` are the three `rand.Float64()`
draws (each in `[0,1)`).  Note the source computes `xRange := pf.xMax - pf.xMax`. -/
def ParticleFilter.createParticle (pf : ParticleFilter) (u v w : ℝ) : Particle :=
  let xRange := pf.xMax - pf.xMax
  let yRange := pf.yMax - pf.yMin
  let x := pf.xMin + xRange * u
  let y := pf.yMin + yRange * v
  let heading := w * 2 * Real.pi
  { X := x, Y := y, Weight := 0, Heading := heading }

/-- Function `createSampleList` from `pf.go`: append `numSamples` fresh particles, the
`i`-th built from the random triple `rs i`. -/
def ParticleFilter.createSampleList (pf : ParticleFilter) (rs : ℕ → ℝ × ℝ × ℝ) :
    ParticleFilter :=
  { pf with
    listParticles := pf.listParticles ++
      (List.range pf.numSamples).map
        (fun i => pf.createParticle (rs i).1 (rs i).2.1 (rs i).2.2) }

/-- Function `CreatePF` from `pf.go`.  The Go struct literal sets only `numSamples`,
`percentResample`, `listParticles`, `maxWeight`, `iteration` and the three
noise distributions; the remaining fields (`xMin`, `xMax`, `yMin`, `yMax`,
the estimates and `sumWeight`) are left at Go's zero value `0` — in
particular the `xMin`/`xMax`/`yMin`/`yMax` parameters are accepted but never
stored.  No parameter validation is performed. -/
def CreatePF (numSamps : ℕ)
    (percResamp xMin xMax yMin yMax locError distError angError : ℝ)
    (rs : ℕ → ℝ × ℝ × ℝ) : ParticleFilter :=
  let pf : ParticleFilter :=
    { numSamples := numSamps
      percentResample := percResamp
      listParticles := []
      xMin := 0, xMax := 0, yMin := 0, yMax := 0
      EstimatedX := 0, EstimatedY := 0, EstimatedHeading := 0
      maxWeight := 0
      sumWeight := 0
      iteration := 0
      locSigma := locError
      angSigma := angError
      distSigma := distError }
  pf.createSampleList rs

/-- One step of the `CalculateWeights` loop body of `pf.go`, acting on the
accumulator (processed particles, running `maxWeight`, running `sumWeight`). -/
def weightStep (r : Particle → ℝ) (acc : List Particle × ℝ × ℝ) (p : Particle) :
    List Particle × ℝ × ℝ :=
  let newWeight := r p
  (acc.1 ++ [p.UpdateWeight newWeight],
   checkAndSetMaxWeight acc.2.1 newWeight false,
   acc.2.2 + newWeight)

/-- Function `CalculateWeights` from `pf.go`: reset `maxWeight` via
`checkAndSetMaxWeight(0.0, true)` and `sumWeight` to `0`, then for each
particle store `r(particle)` as its weight while accumulating the running
maximum and sum.  The `Reading` interface is modelled by its single method,
a likelihood function `r`. -/
def ParticleFilter.CalculateWeights (pf : ParticleFilter) (r : Particle → ℝ) :
    ParticleFilter :=
  let res := pf.listParticles.foldl (weightStep r)
    ([], checkAndSetMaxWeight pf.maxWeight 0 true, 0)
  { pf with listParticles := res.1, maxWeight := res.2.1, sumWeight := res.2.2 }

/-- The jitter ("fuzz") block inside the resampling wheel of `pf.go`: a fresh
particle at the selected particle's pose plus Gaussian noise, heading wrapped
once by `±2π`, weight reset to `0`. -/
def fuzzParticle (p : Particle) (nx ny nh : ℝ) : Particle :=
  let newX := p.X + nx
  let newY := p.Y + ny
  let h0 := p.Heading + nh
  let newHeading :=
    if h0 < 0 then h0 + 2 * Real.pi
    else if h0 > 2 * Real.pi then h0 - 2 * Real.pi
    else h0
  { X := newX, Y := newY, Heading := newHeading, Weight := 0 }

/-- Fuel-indexed model of the inner wheel walk of `ResampleAndFuzz`
(`for beta > 0 { ... }` in `pf.go`): visit `l[idx]`; if its weight exceeds
`beta` the jittered copy is appended and the loop exits (the subsequent
`beta -= weight` makes `beta` negative), otherwise subtract the weight,
advance the index modulo `n` and continue.  Results: `some (some p)` — the
loop exited after appending `p`; `some none` — the loop exited without
appending; `none` — the loop has not exited within `fuel` iterations. -/
def wheelWalkFuel (l : List Particle) (n : ℕ) (nx ny nh : ℝ) :
    ℕ → ℝ → ℕ → Option (Option Particle)
  | 0, _, _ => none
  | fuel + 1, beta, idx =>
    if beta > 0 then
      let p := l.getD idx default
      if p.Weight > beta then some (some (fuzzParticle p nx ny nh))
      else wheelWalkFuel l n nx ny nh fuel (beta - p.Weight) ((idx + 1) % n)
    else some none

/-- Value `int(float64(pf.numSamples) * pf.percentResample)` from `pf.go`
(truncation; for the nonnegative fractions of interest this is the floor). -/
def numIntResampleOf (pf : ParticleFilter) : ℕ :=
  (⌊(pf.numSamples : ℝ) * pf.percentResample⌋).toNat

/-- The weight-normalization loop at the top of `ResampleAndFuzz` in `pf.go`:
every particle's weight is divided by `sumWeight` (no zero guard). -/
def normalizedList (pf : ParticleFilter) : List Particle :=
  pf.listParticles.map (fun p => p.UpdateWeight (p.Weight / pf.sumWeight))

/-- The `i`-th iteration of the outer wheel loop of `ResampleAndFuzz` in
`pf.go`: draw `beta = u i * maxWeight * 2`, start at index `s i` and run the
inner walk over the normalized population. -/
def wheelSelection (pf : ParticleFilter) (u : ℕ → ℝ) (s : ℕ → ℕ)
    (nx ny nh : ℕ → ℝ) (fuel : ℕ) (i : ℕ) : Option (Option Particle) :=
  wheelWalkFuel (normalizedList pf) pf.numSamples (nx i) (ny i) (nh i) fuel
    (u i * pf.maxWeight * 2) (s i)

/-- Function `ResampleAndFuzz` from `pf.go`.  Inputs model the random draws: `u i` is
the `rand.Float64()` for the `i`-th wheel iteration's `beta`, `s i` its
`rand.Intn(numIntResample)` start index, `nx`/`ny`/`nh` the jitter noise it
consumes on selection, and `sp` the random triples for the spoof (refill)
particles.  Steps, in source order: bump `iteration`; divide every weight by
`sumWeight` (no zero guard); run the wheel `numIntResample` times collecting
the appended particles; set the estimates to the averages over the appended
particles (divided by `numIntResample`); append `numSamples - numIntResample`
spoof particles; replace the population. -/
def ParticleFilter.ResampleAndFuzz (pf : ParticleFilter)
    (u : ℕ → ℝ) (s : ℕ → ℕ) (nx ny nh : ℕ → ℝ) (sp : ℕ → ℝ × ℝ × ℝ)
    (fuel : ℕ) : ParticleFilter :=
  let numIntResample := numIntResampleOf pf
  let numSpoof := pf.numSamples - numIntResample
  let picked := (List.range numIntResample).filterMap
    (fun i => (wheelSelection pf u s nx ny nh fuel i).join)
  let xLoc := (picked.map Particle.X).sum / (numIntResample : ℝ)
  let yLoc := (picked.map Particle.Y).sum / (numIntResample : ℝ)
  let heading := (picked.map Particle.Heading).sum / (numIntResample : ℝ)
  let spoofs := (List.range numSpoof).map
    (fun i => pf.createParticle (sp i).1 (sp i).2.1 (sp i).2.2)
  { pf with
    iteration := pf.iteration + 1
    EstimatedX := xLoc
    EstimatedY := yLoc
    EstimatedHeading := heading
    listParticles := picked ++ spoofs }

/-- Function `ParticleFilter.Move` from `pf.go` (the spec's `MoveParticles`): move each
of the first `numSamples` particles with fresh per-particle noise added to
`dist` and `ang` (`dn i`, `an i`), then set each estimate to the component sum
divided by `float64(pf.numSamples) * pf.percentResample`. -/
def ParticleFilter.Move (pf : ParticleFilter) (dist ang : ℝ) (dn an : ℕ → ℝ) :
    ParticleFilter :=
  let moved := (List.range pf.numSamples).map
    (fun i => (pf.listParticles.getD i default).Move (dist + dn i) (ang + an i))
  { pf with
    listParticles := moved
    EstimatedX := (moved.map Particle.X).sum /
      ((pf.numSamples : ℝ) * pf.percentResample)
    EstimatedY := (moved.map Particle.Y).sum /
      ((pf.numSamples : ℝ) * pf.percentResample)
    EstimatedHeading := (moved.map Particle.Heading).sum /
      ((pf.numSamples : ℝ) * pf.percentResample) }

/-- Function `CalculateNormDist` from `pf.go`: the Gaussian density
`(1/(σ√(2π))) · e^(−0.5·((x−μ)/σ)²)`. -/
def CalculateNormDist (x mu sigma : ℝ) : ℝ :=
  let xMuExponent := ((x - mu) / sigma) ^ (2 : ℕ)
  let eulerExponent := Real.exp (-0.5 * xMuExponent)
  (1 / (sigma * Real.sqrt (2 * Real.pi))) * eulerExponent

end

/-! ### Helper lemmas -/

/-- The single `±2π` wrap in `Particle.Move` lands in `[0, 2π)` whenever the
un-wrapped heading lies in `[-2π, 2π)`. -/
lemma move_heading_range (p : Particle) (dist ang : ℝ)
    (h1 : -(2 * Real.pi) ≤ p.Heading + ang) (h2 : p.Heading + ang < 2 * Real.pi) :
    0 ≤ (p.Move dist ang).Heading ∧ (p.Move dist ang).Heading < 2 * Real.pi := by
  have hpi : (0 : ℝ) < Real.pi := Real.pi_pos
  simp only [Particle.Move]
  by_cases hneg : p.Heading + ang < 0
  · rw [if_pos hneg]
    constructor <;> linarith
  · rw [if_neg hneg]
    push_neg at hneg
    have hgt : ¬ (p.Heading + ang > 2 * Real.pi) := by linarith
    rw [if_neg hgt]
    exact ⟨hneg, h2⟩

/-- Claim C4 counterexample input: a particle with heading `0`. -/
def particleAtZero : Particle := ⟨0, 0, 0, 0⟩

/-! ### Claim C4 -/

/-- Claim C4, counterexample: moving a particle with heading `0` by angle
`-7` wraps only once, leaving heading `2π - 7 < 0`, outside `[0, 2π)`. -/
theorem C4_counterexample :
    ¬ (0 ≤ (particleAtZero.Move 0 (-7)).Heading ∧
        (particleAtZero.Move 0 (-7)).Heading < 2 * Real.pi) := by
  have hpi : Real.pi < 3.15 := Real.pi_lt_d2
  have hlt : ((0 : ℝ) + -7 < 0) := by norm_num
  simp only [particleAtZero, Particle.Move, if_pos hlt]
  intro hc
  have h0 := hc.1
  nlinarith

/-- Claim C4, amended: after `Particle.Move(dist, ang)` the heading lies in
`[0, 2π)` provided the un-wrapped heading `Heading + ang` lies in
`[-2π, 2π)` (the single-wrap normalization handles only one turn); likewise
every particle moved by `ParticleFilter.Move` has heading in `[0, 2π)`
provided each particle's un-wrapped heading (including its noise draw) lies
in `[-2π, 2π)`. -/
theorem C4_amended (p : Particle) (d a : ℝ)
    (pf : ParticleFilter) (dist ang : ℝ) (dn an : ℕ → ℝ)
    (hp1 : -(2 * Real.pi) ≤ p.Heading + a) (hp2 : p.Heading + a < 2 * Real.pi)
    (hpre : ∀ i, i < pf.numSamples →
      -(2 * Real.pi) ≤ (pf.listParticles.getD i default).Heading + (ang + an i) ∧
      (pf.listParticles.getD i default).Heading + (ang + an i) < 2 * Real.pi) :
    (0 ≤ (p.Move d a).Heading ∧ (p.Move d a).Heading < 2 * Real.pi) ∧
    (∀ q ∈ (pf.Move dist ang dn an).listParticles,
      0 ≤ q.Heading ∧ q.Heading < 2 * Real.pi) := by
  constructor
  · exact move_heading_range p d a hp1 hp2
  · intro q hq
    simp only [ParticleFilter.Move, List.mem_map, List.mem_range] at hq
    obtain ⟨i, hi, rfl⟩ := hq
    exact move_heading_range _ _ _ (hpre i hi).1 (hpre i hi).2

/-- A one-particle filter with `percentResample = 1`, particle at the origin
with weight `1`, `sumWeight = 1`, `maxWeight = 1` (the state a weighting pass
with unit likelihood produces). -/
def pfW1 : ParticleFilter :=
  { numSamples := 1
    percentResample := 1
    listParticles := [⟨0, 0, 0, 1⟩]
    xMin := 0, xMax := 0, yMin := 0, yMax := 0
    EstimatedX := 0, EstimatedY := 0, EstimatedHeading := 0
    maxWeight := 1
    sumWeight := 1
    iteration := 0
    locSigma := 0, angSigma := 0, distSigma := 0 }

/-- Claim C4 witness: the amended theorem applied at a particle with heading
`0` moved by angle `1`, inside the filter `pfW1` with zero noise. -/
theorem C4_witness :
    (-(2 * Real.pi) ≤ (0 : ℝ) + 1 ∧ (0 : ℝ) + 1 < 2 * Real.pi) ∧
    (0 ≤ (particleAtZero.Move 0 1).Heading ∧
      (particleAtZero.Move 0 1).Heading < 2 * Real.pi) := by
  have hpi3 : (3 : ℝ) < Real.pi := Real.pi_gt_three
  have h1 : -(2 * Real.pi) ≤ (0 : ℝ) + 1 := by nlinarith
  have h2 : (0 : ℝ) + 1 < 2 * Real.pi := by nlinarith
  refine ⟨⟨h1, h2⟩, ?_⟩
  have hpre : ∀ i, i < pfW1.numSamples →
      -(2 * Real.pi) ≤ (pfW1.listParticles.getD i default).Heading + ((1 : ℝ) + (fun _ : ℕ => (0 : ℝ)) i) ∧
      (pfW1.listParticles.getD i default).Heading + ((1 : ℝ) + (fun _ : ℕ => (0 : ℝ)) i) < 2 * Real.pi := by
    intro i hi
    simp only [pfW1] at hi
    have hi0 : i = 0 := Nat.lt_one_iff.mp hi
    subst hi0
    constructor <;> simp [pfW1] <;> nlinarith
  have hp1 : -(2 * Real.pi) ≤ particleAtZero.Heading + 1 := by
    simp only [particleAtZero]; exact h1
  have hp2 : particleAtZero.Heading + 1 < 2 * Real.pi := by
    simp only [particleAtZero]; exact h2
  exact (C4_amended particleAtZero 0 1 pfW1 0 1 (fun _ => 0) (fun _ => 0)
    hp1 hp2 hpre).1

/-! ### CalculateWeights characterization (helpers for C7 and C10) -/

lemma checkAndSetMaxWeight_false (m w : ℝ) :
    checkAndSetMaxWeight m w false = max m w := by
  simp only [checkAndSetMaxWeight, if_false, Bool.false_eq_true]
  rcases le_or_lt w m with h | h
  · rw [if_neg (not_lt.mpr h), max_eq_left h]
  · rw [if_pos h, max_eq_right h.le]

lemma checkAndSetMaxWeight_true (m w : ℝ) :
    checkAndSetMaxWeight m w true = w := by
  simp [checkAndSetMaxWeight]

lemma weightFold_list (r : Particle → ℝ) (l : List Particle)
    (acc : List Particle) (m s : ℝ) :
    (l.foldl (weightStep r) (acc, m, s)).1 =
      acc ++ l.map (fun p => p.UpdateWeight (r p)) := by
  induction l generalizing acc m s with
  | nil => simp
  | cons p t ih =>
      simp only [List.foldl_cons, List.map_cons, weightStep, ih, List.append_assoc,
        List.singleton_append]

lemma weightFold_max (r : Particle → ℝ) (l : List Particle)
    (acc : List Particle) (m s : ℝ) :
    (l.foldl (weightStep r) (acc, m, s)).2.1 =
      (l.map r).foldl max m := by
  induction l generalizing acc m s with
  | nil => simp
  | cons p t ih =>
      simp only [List.foldl_cons, List.map_cons, weightStep, ih,
        checkAndSetMaxWeight_false]

lemma weightFold_sum (r : Particle → ℝ) (l : List Particle)
    (acc : List Particle) (m s : ℝ) :
    (l.foldl (weightStep r) (acc, m, s)).2.2 = s + (l.map r).sum := by
  induction l generalizing acc m s with
  | nil => simp
  | cons p t ih =>
      simp only [List.foldl_cons, List.map_cons, weightStep, ih, List.sum_cons]
      ring

/-- The population after `CalculateWeights`: every particle keeps its pose and
gets `r` of its pre-pass state as weight. -/
lemma calculateWeights_list (pf : ParticleFilter) (r : Particle → ℝ) :
    (pf.CalculateWeights r).listParticles =
      pf.listParticles.map (fun p => p.UpdateWeight (r p)) := by
  simp [ParticleFilter.CalculateWeights, weightFold_list]

lemma calculateWeights_sum (pf : ParticleFilter) (r : Particle → ℝ) :
    (pf.CalculateWeights r).sumWeight = (pf.listParticles.map r).sum := by
  simp [ParticleFilter.CalculateWeights, weightFold_sum]

lemma calculateWeights_max (pf : ParticleFilter) (r : Particle → ℝ) :
    (pf.CalculateWeights r).maxWeight = (pf.listParticles.map r).foldl max 0 := by
  have h := weightFold_max r pf.listParticles []
    (checkAndSetMaxWeight pf.maxWeight 0 true) 0
  simp only [ParticleFilter.CalculateWeights]
  rw [h, checkAndSetMaxWeight_true]

lemma le_foldl_max_init (l : List ℝ) (a : ℝ) : a ≤ l.foldl max a := by
  induction l generalizing a with
  | nil => simp
  | cons x t ih => exact le_trans (le_max_left a x) (ih (max a x))

lemma le_foldl_max_mem (l : List ℝ) (a x : ℝ) : x ∈ l → x ≤ l.foldl max a := by
  induction l generalizing a with
  | nil => intro hx; simp at hx
  | cons y t ih =>
      intro hx
      rw [List.foldl_cons]
      rcases List.mem_cons.mp hx with h | h
      · subst h
        exact le_trans (le_max_right a x) (le_foldl_max_init t (max a x))
      · exact ih (max a y) h

lemma foldl_max_cases (l : List ℝ) (a : ℝ) :
    l.foldl max a = a ∨ ∃ x ∈ l, l.foldl max a = x := by
  induction l generalizing a with
  | nil => exact Or.inl rfl
  | cons y t ih =>
      rw [List.foldl_cons]
      rcases ih (max a y) with h | ⟨x, hx, hfx⟩
      · rcases le_or_lt y a with hya | hya
        · rw [max_eq_left hya] at h ⊢
          exact Or.inl h
        · rw [max_eq_right hya.le] at h ⊢
          exact Or.inr ⟨y, List.mem_cons_self y t, h⟩
      · exact Or.inr ⟨x, List.mem_cons_of_mem y hx, hfx⟩

/-! ### Claim C7 -/

/-- Claim C7: after `CalculateWeights(r)` every particle's weight equals the
likelihood of its pre-pass state, `sumWeight` is the sum of those weights,
and `maxWeight` is reset and recomputed: it equals the fold of `max` over the
new weights starting from `0` (so the previous `maxWeight` does not leak
across cycles), and — for a nonempty population with nonnegative likelihoods —
it is attained at some particle and dominates all weights. -/
theorem C7_confirmed (pf : ParticleFilter) (r : Particle → ℝ)
    (hne : pf.listParticles ≠ [])
    (hw : ∀ p ∈ pf.listParticles, 0 ≤ r p) :
    (pf.CalculateWeights r).listParticles =
      pf.listParticles.map (fun p => p.UpdateWeight (r p)) ∧
    (pf.CalculateWeights r).sumWeight = (pf.listParticles.map r).sum ∧
    (pf.CalculateWeights r).maxWeight = (pf.listParticles.map r).foldl max 0 ∧
    (∀ p ∈ pf.listParticles, r p ≤ (pf.CalculateWeights r).maxWeight) ∧
    (∃ p ∈ pf.listParticles, (pf.CalculateWeights r).maxWeight = r p) := by
  refine ⟨calculateWeights_list pf r, calculateWeights_sum pf r,
    calculateWeights_max pf r, ?_, ?_⟩
  · intro p hp
    rw [calculateWeights_max]
    exact le_foldl_max_mem _ 0 (r p) (List.mem_map_of_mem r hp)
  · rw [calculateWeights_max]
    rcases foldl_max_cases (pf.listParticles.map r) 0 with h0 | ⟨x, hx, hfx⟩
    · obtain ⟨q, t, hqt⟩ := List.exists_cons_of_ne_nil hne
      refine ⟨q, by rw [hqt]; exact List.mem_cons_self q t, ?_⟩
      rw [h0]
      have hq0 : 0 ≤ r q := hw q (by rw [hqt]; exact List.mem_cons_self q t)
      have hqle : r q ≤ (pf.listParticles.map r).foldl max 0 :=
        le_foldl_max_mem _ 0 (r q)
          (List.mem_map_of_mem r (by rw [hqt]; exact List.mem_cons_self q t))
      rw [h0] at hqle
      linarith
    · obtain ⟨p, hp, hpx⟩ := List.mem_map.mp hx
      exact ⟨p, hp, by rw [hfx, hpx]⟩

/-- Claim C7 witness: the characterization applied to `pfW1` with the constant
likelihood `2`. -/
theorem C7_witness :
    pfW1.listParticles ≠ [] ∧
    (∀ p ∈ pfW1.listParticles, (0 : ℝ) ≤ 2) ∧
    (pfW1.CalculateWeights (fun _ => 2)).sumWeight =
      (pfW1.listParticles.map (fun _ => (2 : ℝ))).sum := by
  have hne : pfW1.listParticles ≠ [] := by simp [pfW1]
  have hw : ∀ p ∈ pfW1.listParticles, (0 : ℝ) ≤ (fun _ : Particle => (2 : ℝ)) p := by
    intro p _; norm_num
  exact ⟨hne, fun p _ => by norm_num,
    (C7_confirmed pfW1 (fun _ => 2) hne hw).2.1⟩

/-! ### Claim C10 -/

lemma getD_updateWeight_map (r : Particle → ℝ) (l : List Particle) (i : ℕ) :
    ((l.map (fun p : Particle => p.UpdateWeight (r p))).getD i default).X =
      (l.getD i default).X ∧
    ((l.map (fun p : Particle => p.UpdateWeight (r p))).getD i default).Y =
      (l.getD i default).Y ∧
    ((l.map (fun p : Particle => p.UpdateWeight (r p))).getD i default).Heading =
      (l.getD i default).Heading := by
  induction l generalizing i with
  | nil => simp
  | cons p t ih =>
      cases i with
      | zero => simp [Particle.UpdateWeight]
      | succ j => simpa using ih j

/-- Claim C10: `CalculateWeights` is frame-preserving outside the weight
fields and aggregates — the population length and every particle's pose
(componentwise, by position), the estimated pose fields and the iteration
counter are unchanged. -/
theorem C10_confirmed (pf : ParticleFilter) (r : Particle → ℝ) :
    (pf.CalculateWeights r).listParticles.length = pf.listParticles.length ∧
    (∀ i : ℕ,
      ((pf.CalculateWeights r).listParticles.getD i default).X =
        (pf.listParticles.getD i default).X ∧
      ((pf.CalculateWeights r).listParticles.getD i default).Y =
        (pf.listParticles.getD i default).Y ∧
      ((pf.CalculateWeights r).listParticles.getD i default).Heading =
        (pf.listParticles.getD i default).Heading) ∧
    (pf.CalculateWeights r).EstimatedX = pf.EstimatedX ∧
    (pf.CalculateWeights r).EstimatedY = pf.EstimatedY ∧
    (pf.CalculateWeights r).EstimatedHeading = pf.EstimatedHeading ∧
    (pf.CalculateWeights r).iteration = pf.iteration := by
  refine ⟨?_, ?_, rfl, rfl, rfl, rfl⟩
  · rw [calculateWeights_list]; simp
  · intro i
    rw [calculateWeights_list]
    exact getD_updateWeight_map r pf.listParticles i

/-! ### Claim C9 -/

/-- Claim C9: `CalculateNormDist` evaluated at the mean equals the Gaussian
peak `1/(σ√(2π))` exactly, and the density is symmetric about the mean. -/
theorem C9_confirmed (mu sigma : ℝ) (hs : 0 < sigma) :
    CalculateNormDist mu mu sigma = 1 / (sigma * Real.sqrt (2 * Real.pi)) ∧
    ∀ d : ℝ, CalculateNormDist (mu + d) mu sigma = CalculateNormDist (mu - d) mu sigma := by
  constructor
  · simp [CalculateNormDist, sub_self, Real.exp_zero]
  · intro d
    simp only [CalculateNormDist]
    have h : ((mu + d - mu) / sigma) ^ (2 : ℕ) = ((mu - d - mu) / sigma) ^ (2 : ℕ) := by
      ring
    rw [h]

/-- Claim C9 witness: the peak and the symmetry at `mu = 0`, `sigma = 1`,
`d = 2`. -/
theorem C9_witness :
    (0 : ℝ) < 1 ∧
    CalculateNormDist 0 0 1 = 1 / (1 * Real.sqrt (2 * Real.pi)) ∧
    CalculateNormDist (0 + 2) 0 1 = CalculateNormDist (0 - 2) 0 1 := by
  have h1 : (0 : ℝ) < 1 := by norm_num
  exact ⟨h1, (C9_confirmed 0 1 h1).1, (C9_confirmed 0 1 h1).2 2⟩

/-! ### Claim C6 -/

/-- Claim C6, code bug: because `createParticle` computes the x-axis range as
`xMax - xMax`, the x coordinate of every created particle (at construction
and at exploration refill) is exactly `xMin`, for every random draw — the
spawn distribution is degenerate in x, while the y coordinate does follow
`yMin + (yMax - yMin)·v` and the heading is `v·2π` with weight `0`. -/
theorem C6_code_bug (pf : ParticleFilter) (u v w : ℝ) :
    (pf.createParticle u v w).X = pf.xMin ∧
    (pf.createParticle u v w).Y = pf.yMin + (pf.yMax - pf.yMin) * v ∧
    (pf.createParticle u v w).Heading = w * 2 * Real.pi ∧
    (pf.createParticle u v w).Weight = 0 := by
  refine ⟨?_, rfl, rfl, rfl⟩
  simp only [ParticleFilter.createParticle]
  ring

/-! ### Claim C8 -/

/-- Claim C8, code bug: `CreatePF` performs no validation at all.  Called
with the invalid configuration `numSamples = 0`, `resampleFraction = 2`,
and sigmas `-1`, it still returns a normally-constructed filter handle that
stores the invalid fraction and sigmas (and, incidentally, never stores the
requested spatial bounds). -/
theorem C8_code_bug :
    (CreatePF 0 2 0 10 0 10 (-1) (-1) (-1) (fun _ => (0, 0, 0))).percentResample = 2 ∧
    (CreatePF 0 2 0 10 0 10 (-1) (-1) (-1) (fun _ => (0, 0, 0))).numSamples = 0 ∧
    (CreatePF 0 2 0 10 0 10 (-1) (-1) (-1) (fun _ => (0, 0, 0))).locSigma = -1 ∧
    (CreatePF 0 2 0 10 0 10 (-1) (-1) (-1) (fun _ => (0, 0, 0))).listParticles = [] := by
  refine ⟨rfl, rfl, rfl, ?_⟩
  simp [CreatePF, ParticleFilter.createSampleList]

/-! ### Claim C1 -/

lemma length_filterMap_range {α : Type} (f : ℕ → Option α) (k : ℕ)
    (h : ∀ i < k, (f i).isSome) : ((List.range k).filterMap f).length = k := by
  induction k with
  | zero => simp
  | succ n ih =>
      rw [List.range_succ, List.filterMap_append, List.length_append,
        ih (fun i hi => h i (Nat.lt_succ_of_lt hi))]
      obtain ⟨a, ha⟩ := Option.isSome_iff_exists.mp (h n (Nat.lt_succ_self n))
      simp [ha]

lemma numIntResample_le (pf : ParticleFilter) (h : pf.percentResample ≤ 1) :
    numIntResampleOf pf ≤ pf.numSamples := by
  unfold numIntResampleOf
  have hle : (pf.numSamples : ℝ) * pf.percentResample ≤ (pf.numSamples : ℝ) := by
    nlinarith [Nat.cast_nonneg (α := ℝ) pf.numSamples]
  have hfl : ⌊(pf.numSamples : ℝ) * pf.percentResample⌋ ≤ (pf.numSamples : ℤ) := by
    have hm := Int.floor_mono hle
    simpa using hm
  exact Int.toNat_le.mpr hfl

/-- Claim C1, counterexample: in the one-particle filter `pfW1` (a valid
configuration with weight `1` from a weighting pass), if the wheel iteration
draws `rand.Float64() = 0` then `beta = 0`, the inner loop body never runs,
no particle is appended, and `ResampleAndFuzz` returns with a population of
`0 ≠ numSamples = 1` particles. -/
theorem C1_counterexample :
    (pfW1.ResampleAndFuzz (fun _ => 0) (fun _ => 0) (fun _ => 0) (fun _ => 0)
      (fun _ => 0) (fun _ => (0, 0, 0)) 1).listParticles.length ≠ pfW1.numSamples := by
  have h : (pfW1.ResampleAndFuzz (fun _ => 0) (fun _ => 0) (fun _ => 0) (fun _ => 0)
      (fun _ => 0) (fun _ => (0, 0, 0)) 1).listParticles = [] := by
    simp [ParticleFilter.ResampleAndFuzz, numIntResampleOf, pfW1, wheelSelection,
      wheelWalkFuel, List.range_succ]
  rw [h]
  simp [pfW1]

/-- Claim C1, amended: whenever every one of the `numIntResample` wheel
iterations selects a particle (its walk exits by finding a weight strictly
greater than the remaining `beta`), the population after `ResampleAndFuzz`
has exactly `numSamples` particles — the selected-and-jittered ones plus
`numSamples - numIntResample` refills.  (Without that proviso an iteration
can append nothing — e.g. when its `beta` draw is `0` — and the population
comes up short.) -/
theorem C1_amended (pf : ParticleFilter) (u : ℕ → ℝ) (s : ℕ → ℕ)
    (nx ny nh : ℕ → ℝ) (sp : ℕ → ℝ × ℝ × ℝ) (fuel : ℕ)
    (hfrac : pf.percentResample ≤ 1)
    (hsel : ∀ i < numIntResampleOf pf,
      ((wheelSelection pf u s nx ny nh fuel i).join).isSome) :
    (pf.ResampleAndFuzz u s nx ny nh sp fuel).listParticles.length =
      pf.numSamples := by
  simp only [ParticleFilter.ResampleAndFuzz, List.length_append, List.length_map,
    List.length_range]
  rw [length_filterMap_range _ _ hsel]
  exact Nat.add_sub_cancel' (numIntResample_le pf hfrac)

/-- Claim C1 witness: in `pfW1` with `rand.Float64() = 1/4` the single wheel
iteration draws `beta = 1/2 < 1` and selects the (normalized) unit-weight
particle, so the resampled population has exactly `numSamples = 1` particle. -/
theorem C1_witness :
    pfW1.percentResample ≤ 1 ∧
    (pfW1.ResampleAndFuzz (fun _ => 1/4) (fun _ => 0) (fun _ => 0) (fun _ => 0)
      (fun _ => 0) (fun _ => (0, 0, 0)) 1).listParticles.length = pfW1.numSamples := by
  have hfrac : pfW1.percentResample ≤ 1 := by simp [pfW1]
  have hnum : numIntResampleOf pfW1 = 1 := by
    simp [numIntResampleOf, pfW1]
  have hsel : ∀ i < numIntResampleOf pfW1,
      ((wheelSelection pfW1 (fun _ => 1/4) (fun _ => 0) (fun _ => 0) (fun _ => 0)
        (fun _ => 0) 1 i).join).isSome := by
    intro i hi
    rw [hnum] at hi
    have hi0 : i = 0 := Nat.lt_one_iff.mp hi
    subst hi0
    simp only [wheelSelection, normalizedList, pfW1, wheelWalkFuel]
    norm_num [Particle.UpdateWeight]
  exact ⟨hfrac, C1_amended pfW1 (fun _ => 1/4) (fun _ => 0) (fun _ => 0)
    (fun _ => 0) (fun _ => 0) (fun _ => (0, 0, 0)) 1 hfrac hsel⟩

/-! ### Claim C5 -/

/-- Over a population whose weights are all `0`, a positive `beta` is never
reduced (`beta -= 0`), so the inner walk makes no progress at any fuel. -/
lemma wheelWalk_zero_weights (fuel : ℕ) : ∀ (beta : ℝ) (idx : ℕ), 0 < beta →
    wheelWalkFuel [⟨0, 0, 0, 0⟩] 1 0 0 0 fuel beta idx = none := by
  induction fuel with
  | zero => intro beta idx hb; rfl
  | succ n ih =>
      intro beta idx hb
      have hw : (([⟨0, 0, 0, 0⟩] : List Particle).getD idx default).Weight = 0 := by
        cases idx with
        | zero => rfl
        | succ j => cases j <;> rfl
      simp only [wheelWalkFuel, if_pos hb]
      rw [if_neg (by rw [hw]; exact not_lt.mpr hb.le)]
      rw [hw, sub_zero]
      exact ih beta ((idx + 1) % 1) hb

/-- Claim C5, code bug: the wheel walk is not bounded.  Over a population
whose (normalized) weights are all `0` and with `beta = 1 > 0`, the inner
loop of `ResampleAndFuzz` leaves `beta` unchanged at every step and never
exits: for every iteration budget `fuel` the walk is still running (`none`),
so the Go loop spins unbounded instead of terminating or failing loudly. -/
theorem C5_code_bug (fuel : ℕ) :
    wheelWalkFuel [⟨0, 0, 0, 0⟩] 1 0 0 0 fuel 1 0 = none :=
  wheelWalk_zero_weights fuel 1 0 (by norm_num)

/-! ### Claim C3 -/

/-- The filter state after a weighting pass in which the measurement model
returned likelihood `0` for every particle: `sumWeight = 0`. -/
noncomputable def pfDegenerate : ParticleFilter := pfW1.CalculateWeights (fun _ => 0)

/-- State after `ResampleAndFuzz` on the degenerate-weights state (zero random
streams; one unit of fuel is enough because `beta = 0` ends every walk at
once). -/
noncomputable def pfDegenerateAfter : ParticleFilter :=
  pfDegenerate.ResampleAndFuzz (fun _ => 0) (fun _ => 0) (fun _ => 0)
    (fun _ => 0) (fun _ => 0) (fun _ => (0, 0, 0)) 1

/-- Claim C3, code bug: after an all-zero weighting pass (`sumWeight = 0`),
`ResampleAndFuzz` does not fail — the Go function has no error result at all.
It divides by the zero `sumWeight`, selects nothing, completes the cycle
(`iteration` is incremented), overwrites the estimates with `0` and leaves a
population of only the refill particles (here: empty), surfacing nothing to
the caller. -/
theorem C3_code_bug :
    pfDegenerate.sumWeight = 0 ∧
    pfDegenerateAfter.iteration = pfDegenerate.iteration + 1 ∧
    pfDegenerateAfter.EstimatedX = 0 ∧
    pfDegenerateAfter.EstimatedY = 0 ∧
    pfDegenerateAfter.EstimatedHeading = 0 ∧
    pfDegenerateAfter.listParticles = [] := by
  have hsum : pfDegenerate.sumWeight = 0 := by
    rw [pfDegenerate, calculateWeights_sum]
    simp [pfW1]
  have hmax : pfDegenerate.maxWeight = 0 := by
    rw [pfDegenerate, calculateWeights_max]
    simp [pfW1]
  have hnum : numIntResampleOf pfDegenerate = 1 := by
    simp [numIntResampleOf, pfDegenerate, ParticleFilter.CalculateWeights, pfW1]
  have hwalk : ∀ i : ℕ, wheelSelection pfDegenerate (fun _ => 0) (fun _ => 0)
      (fun _ => 0) (fun _ => 0) (fun _ => 0) 1 i = some none := by
    intro i
    simp [wheelSelection, wheelWalkFuel, hmax]
  have hns : pfDegenerate.numSamples = 1 := rfl
  refine ⟨hsum, ?_, ?_, ?_, ?_, ?_⟩ <;>
    simp [pfDegenerateAfter, ParticleFilter.ResampleAndFuzz, hnum, hwalk, hns,
      List.range_succ, Option.join]

/-! ### Claim C2 -/

/-- A two-particle filter with `percentResample = 1/2`, both particles at
`x = 1` (a valid configuration for the motion step). -/
noncomputable def pfC2 : ParticleFilter :=
  { numSamples := 2
    percentResample := 1/2
    listParticles := [⟨1, 0, 0, 0⟩, ⟨1, 0, 0, 0⟩]
    xMin := 0, xMax := 0, yMin := 0, yMax := 0
    EstimatedX := 0, EstimatedY := 0, EstimatedHeading := 0
    maxWeight := 0
    sumWeight := 0
    iteration := 0
    locSigma := 0, angSigma := 0, distSigma := 0 }

/-- Claim C2, counterexample: after a zero-noise, zero-motion `Move` on
`pfC2`, the code's estimate is `(1+1)/(2·(1/2)) = 2`, while the arithmetic
mean of `x` over the whole population is `(1+1)/2 = 1` — the divisor is
`numSamples · resampleFraction`, not the population size. -/
theorem C2_counterexample :
    (pfC2.Move 0 0 (fun _ => 0) (fun _ => 0)).EstimatedX ≠
      ((pfC2.Move 0 0 (fun _ => 0) (fun _ => 0)).listParticles.map Particle.X).sum /
        ((pfC2.Move 0 0 (fun _ => 0) (fun _ => 0)).listParticles.length : ℝ) := by
  simp [ParticleFilter.Move, pfC2, Particle.Move, List.range_succ]

/-- Claim C2, amended: after `Move(distance, angle)` each estimate equals the
corresponding component sum divided by `numSamples · resampleFraction`; this
coincides with the arithmetic mean over the entire moved population exactly
when `resampleFraction = 1` (the configuration used by the example drivers). -/
theorem C2_amended (pf : ParticleFilter) (dist ang : ℝ) (dn an : ℕ → ℝ)
    (h : pf.percentResample = 1) :
    (pf.Move dist ang dn an).EstimatedX =
      ((pf.Move dist ang dn an).listParticles.map Particle.X).sum /
        ((pf.Move dist ang dn an).listParticles.length : ℝ) ∧
    (pf.Move dist ang dn an).EstimatedY =
      ((pf.Move dist ang dn an).listParticles.map Particle.Y).sum /
        ((pf.Move dist ang dn an).listParticles.length : ℝ) ∧
    (pf.Move dist ang dn an).EstimatedHeading =
      ((pf.Move dist ang dn an).listParticles.map Particle.Heading).sum /
        ((pf.Move dist ang dn an).listParticles.length : ℝ) := by
  refine ⟨?_, ?_, ?_⟩ <;>
    simp [ParticleFilter.Move, h]

/-- Claim C2 witness: the amended statement at the one-particle filter `pfW1`
(`resampleFraction = 1`), zero motion and zero noise. -/
theorem C2_witness :
    pfW1.percentResample = 1 ∧
    (pfW1.Move 0 0 (fun _ => 0) (fun _ => 0)).EstimatedX =
      ((pfW1.Move 0 0 (fun _ => 0) (fun _ => 0)).listParticles.map Particle.X).sum /
        ((pfW1.Move 0 0 (fun _ => 0) (fun _ => 0)).listParticles.length : ℝ) :=
  ⟨rfl, (C2_amended pfW1 0 0 (fun _ => 0) (fun _ => 0) rfl).1⟩
